import Mathlib

/-!
Shallow embedding of the transaction pipeline of `src/app.py`
(`process_transactions`, `validate_balances`, `cargar_datos_historicos`,
`extract_bank_data` / `load_and_process_bank_statement`).

Conventions:
* A raw table (the camelot extraction result) is a `List (List String)`:
  one list of cell strings per row.  Tables coming from the extractor are
  rectangular; the column count of a non-empty table is the length of its
  first row.
* Money amounts are modelled as `ℚ` (Python floats on the decimal inputs
  occurring here behave like exact decimal arithmetic for the claims at
  stake).
* Dates are encoded as `Nat` in the form `y*10000 + m*100 + d`, so that
  `≤` on the encoding is chronological order.
* A raised-and-caught Python exception together with the `st.error` call
  is modelled as the `Option String` error channel of
  `process_transactions`; the Lean functions are total, which is the
  "never raises" part of the contract.
-/

namespace FlujoCaja

/-- Model of `pd.to_datetime(x, dayfirst=True, errors='coerce')` (app.py:42),
an external-library call, restricted to the day-first `d/m/y` slash format
used by the bank statements; any other string is an unparseable date and
yields `none` (pandas `NaT`). -/
def parse_fecha (s : String) : Option Nat :=
  match s.splitOn "/" with
  | [d, m, y] =>
    match d.toNat?, m.toNat?, y.toNat? with
    | some dv, some mv, some yv =>
      if 1 ≤ dv ∧ dv ≤ 31 ∧ 1 ≤ mv ∧ mv ≤ 12 then
        some (yv * 10000 + mv * 100 + dv)
      else none
    | _, _, _ => none
  | _ => none

/-- The regex cell cleaning `str.replace(r"[^\d\-.,]", "", regex=True)`
of app.py:47: keep only digits, minus sign, dot and comma. -/
def strip_currency (s : String) : String :=
  String.mk (s.data.filter (fun c => c.isDigit || c = '-' || c = '.' || c = ','))

/-- The comma removal `str.replace(",", "")` of app.py:48. -/
def remove_commas (s : String) : String :=
  String.mk (s.data.filter (fun c => c ≠ ','))

/-- Numeric value of a digit list read in base 10. -/
def digits_val (l : List Char) : Nat :=
  l.foldl (fun a c => 10 * a + (c.toNat - 48)) 0

/-- Model of Python `float(s)` (the `astype(float)` of app.py:48) on the
strings reaching it there: after `strip_currency` and `remove_commas` the
cell consists of digits, `-` and `.` only.  Accepted: an optional leading
minus sign followed by digits with at most one dot and at least one digit
(Python accepts `"5."` and `".5"`).  Everything else (empty string, a
second dot as in `"1.000.00"`, an interior minus) raises `ValueError`,
modelled as `none`. -/
def parse_float (s : String) : Option ℚ :=
  let cs := s.data
  let neg : Bool := cs.head? = some '-'
  let body := if neg then cs.tail else cs
  if body.any (fun c => !(c.isDigit || c = '.')) then none
  else if body.filter (fun c => c.isDigit) = [] then none
  else if 1 < body.count '.' then none
  else
    let intPart := body.takeWhile (fun c => c ≠ '.')
    let fracPart := (body.dropWhile (fun c => c ≠ '.')).drop 1
    let v : ℚ := (digits_val intPart : ℚ) + (digits_val fracPart : ℚ) / (10 ^ fracPart.length)
    some (if neg then -v else v)

/-- The whole currency conversion of app.py:47-48 for one cell. -/
def parse_money (s : String) : Option ℚ :=
  parse_float (remove_commas (strip_currency s))

/-- Substring test on char lists (`re.search` of a literal pattern). -/
def list_contains (needle : List Char) : List Char → Bool
  | [] => needle.isEmpty
  | c :: rest => needle.isPrefixOf (c :: rest) || list_contains needle rest

/-- Model of `re.search(pat, s)` for the literal (metacharacter-free)
patterns of app.py:49-56: does `pat` occur as a substring of `s`? -/
def contains_substr (s pat : String) : Bool :=
  list_contains pat.data s.data

/-- The alternatives of the `Ingresos` regex of app.py:50. -/
def ingresos_pats : List String :=
  ["PAGO INTERBANC", "ABONO", "DEPÓSITO", "NÓMINA", "TRANSFERENCIA A FAVOR"]

/-- The alternatives of the `Egresos` regex of app.py:51. -/
def egresos_pats : List String :=
  ["IMPUESTO", "COMISIÓN", "RETIRO", "PAGO A PROVE", "TRANSFERENCIA"]

/-- The alternatives of the `Servicios` regex of app.py:52. -/
def servicios_pats : List String :=
  ["CUOTA MANEJO", "SEGUROS", "TARJETA", "AGUA", "LUZ", "GAS"]

/-- Does the description match any alternative of one named pattern? -/
def matches_any (pats : List String) (d : String) : Bool :=
  pats.any (fun p => contains_substr d p)

/-- The categorizer of app.py:54-57: `next((k for k, v in patterns.items()
if re.search(v, str(x))), "Otros")` — the dict iterates in insertion order
Ingresos, Egresos, Servicios, so the first matching category wins. -/
def categorize (d : String) : String :=
  if matches_any ingresos_pats d then "Ingresos"
  else if matches_any egresos_pats d then "Egresos"
  else if matches_any servicios_pats d then "Servicios"
  else "Otros"

/-- One fully processed transaction row (the columns of the dataframe
returned by `process_transactions`). -/
structure Txn where
  fecha : Nat
  descripcion : String
  sucursal : String
  doc : String
  valor : ℚ
  saldo : ℚ
  categoria : String
  ingresos : ℚ
  egresos : ℚ
  flujoNeto : ℚ
  saldoAcumulado : ℚ
deriving DecidableEq, Repr, Inhabited

/-- The canonical column names assigned at app.py:40. -/
def canonical_cols : List String :=
  ["Fecha", "Descripción", "Sucursal", "Doc", "Valor", "Saldo"]

/-- Build one output row from its parsed date, raw cells and parsed
amounts, per app.py:54-62:
`Categoría` from the description, `Ingresos = np.where(Valor > 0, Valor, 0)`,
`Egresos = np.where(Valor < 0, abs(Valor), 0)`, `Flujo Neto = Valor`,
`Saldo Acumulado = Saldo`. -/
def build_txn (f : Nat) (r : List String) (v s : ℚ) : Txn :=
  { fecha := f
    descripcion := r.getD 1 ""
    sucursal := r.getD 2 ""
    doc := r.getD 3 ""
    valor := v
    saldo := s
    categoria := categorize (r.getD 1 "")
    ingresos := if 0 < v then v else 0
    egresos := if v < 0 then |v| else 0
    flujoNeto := v
    saldoAcumulado := s }

/-- Chronological order on processed rows (`sort_values("Fecha")`). -/
def fecha_le (a b : Txn) : Prop := a.fecha ≤ b.fecha

instance : DecidableRel fecha_le := fun a b => Nat.decLe a.fecha b.fecha

instance : IsTotal Txn fecha_le := ⟨fun a b => Nat.le_total a.fecha b.fecha⟩

instance : IsTrans Txn fecha_le := ⟨fun _ _ _ => Nat.le_trans⟩

/-- Embedding of `process_transactions` (app.py:36-66).  The `Option
String` component is the `st.error` message of the `except` branch
(app.py:64-66): `none` means no error was reported.  Control flow of the
source: an empty input returns an empty frame at once (app.py:37-38);
assigning the six canonical column names (app.py:40) raises `ValueError`
when the column count of the (rectangular) table differs from six; date
parsing with `errors='coerce'` plus `dropna` (app.py:42-43) silently
drops every row whose first cell is not a parseable date; the currency
conversion (app.py:44-48) of the remaining rows raises `ValueError` (and
so reaches the `except` branch) as soon as one `Valor` or `Saldo` cell
fails `parse_money`; finally the rows are categorized, the derived
columns added, and the frame sorted by date (app.py:49-62).
`process_rows` is the part after the date filtering, on the rows paired
with their parsed dates. -/
def process_rows (dated : List (Nat × List String)) : List Txn × Option String :=
  match (dated.map (fun p => p.2.getD 4 "")).mapM parse_money with
  | none => ([], some "Error al procesar las transacciones: Valor")
  | some vals =>
    match (dated.map (fun p => p.2.getD 5 "")).mapM parse_money with
    | none => ([], some "Error al procesar las transacciones: Saldo")
    | some saldos =>
      (List.insertionSort fecha_le
        ((dated.zip (vals.zip saldos)).map (fun q => build_txn q.1.1 q.1.2 q.2.1 q.2.2)),
       none)

/-- The full normalizer: empty check, column-count check, date filtering,
then `process_rows`. -/
def process_transactions (raw : List (List String)) : List Txn × Option String :=
  match raw with
  | [] => ([], none)
  | r0 :: _ =>
    if r0.length = 6 then
      process_rows (raw.filterMap (fun r => (parse_fecha (r.getD 0 "")).map (fun f => (f, r))))
    else ([], some "Error al procesar las transacciones: Length mismatch")

/-! ## Balance validator (app.py:68-73) -/

/-- A row as seen by `validate_balances`: it only touches the `Valor` and
`Saldo` columns, and guards on their presence; the typed embedding keeps
exactly those columns. -/
structure VRow where
  valor : ℚ
  saldo : ℚ
deriving DecidableEq, Repr, Inhabited

/-- Projection of a processed row to the columns `validate_balances`
reads (the call site at app.py:85 passes the processed frame). -/
def toVRow (t : Txn) : VRow :=
  { valor := t.valor, saldo := t.saldo }

/-- Row loop of app.py:71-72: `acc` is the running
`df["Valor"].cumsum()` entering the current row and `i` its positional
index; the row is kept (with its index, as the pandas boolean mask keeps
the original index) iff
`abs(cumsum + df["Saldo"].iloc[0] - df["Valor"].iloc[0] - row.Saldo) > 1`. -/
def validateAux (s0 v0 : ℚ) : ℚ → Nat → List VRow → List (Nat × VRow)
  | _, _, [] => []
  | acc, i, r :: rs =>
    if 1 < |acc + r.valor + s0 - v0 - r.saldo| then
      (i, r) :: validateAux s0 v0 (acc + r.valor) (i + 1) rs
    else validateAux s0 v0 (acc + r.valor) (i + 1) rs

/-- Embedding of `validate_balances` (app.py:68-73): empty input (or a
frame without the two columns, which the typed `VRow` rules out) returns
the empty frame; otherwise
`calculated = df["Valor"].cumsum() + df["Saldo"].iloc[0] - df["Valor"].iloc[0]`
and the rows with `abs(calculated - df["Saldo"]) > 1` are returned
together with their positional index. -/
def validate_balances : List VRow → List (Nat × VRow)
  | [] => []
  | h :: t => validateAux h.saldo h.valor 0 0 (h :: t)

/-- Spec-side recomputed running balance at index `i`:
`cumsum(value)[i] + balance[0] - value[0]`, written with a prefix sum of
the first `i+1` values rather than with the implementation's accumulator. -/
def recomputed (df : List VRow) (i : Nat) : ℚ :=
  ((df.map (fun r => r.valor)).take (i + 1)).sum + (df.headI).saldo - (df.headI).valor

/-- Row loop of the spec-side consistency condition
`balance[i] == balance[0] + cumsum(value)[i] - value[0]`, with `acc` the
prefix sum of the values before the current row. -/
def consistentAux (s0 v0 : ℚ) : ℚ → List VRow → Bool
  | _, [] => true
  | acc, r :: rs =>
    decide (r.saldo = acc + r.valor + s0 - v0) && consistentAux s0 v0 (acc + r.valor) rs

/-- The table states balances consistent with its own value column:
`balance[i] == balance[0] + cumsum(value)[i] - value[0]` for all `i`. -/
def consistentB : List VRow → Bool
  | [] => true
  | h :: t => consistentAux h.saldo h.valor 0 (h :: t)

/-- Replace `saldo` of the row at position `j` by `saldo + δ`
(perturbation of one stated balance entry). -/
def perturb : List VRow → Nat → ℚ → List VRow
  | [], _, _ => []
  | r :: rs, 0, d => { r with saldo := r.saldo + d } :: rs
  | r :: rs, j + 1, d => r :: perturb rs j d

/-! ## Historical loader (app.py:103-124) -/

/-- A row of one historical CSV snapshot.  `extra` stands for the
remaining columns of the file (the loader dedupes on the
(`Fecha`, `Valor`, `Descripción`) triple only, so rows may agree on the
triple and differ elsewhere). -/
structure HRow where
  fecha : Nat
  valor : ℚ
  descripcion : String
  extra : String
deriving DecidableEq, Repr, Inhabited

/-- The `drop_duplicates` subset key of app.py:120. -/
def triple (r : HRow) : Nat × ℚ × String :=
  (r.fecha, r.valor, r.descripcion)

/-- Loop of `drop_duplicates` on the subset [Fecha, Valor, Descripción]
(app.py:120), keep-first semantics: a row is kept iff its triple was not
`seen` on an earlier row. -/
def dedupAux (seen : List (Nat × ℚ × String)) : List HRow → List HRow
  | [] => []
  | r :: rs =>
    if triple r ∈ seen then dedupAux seen rs
    else r :: dedupAux (triple r :: seen) rs

/-- Keep the first row of every (`Fecha`, `Valor`, `Descripción`) triple. -/
def dedupTriples (l : List HRow) : List HRow :=
  dedupAux [] l

/-- Chronological order on historical rows. -/
def hfecha_le (a b : HRow) : Prop := a.fecha ≤ b.fecha

instance : DecidableRel hfecha_le := fun a b => Nat.decLe a.fecha b.fecha

instance : IsTotal HRow hfecha_le := ⟨fun a b => Nat.le_total a.fecha b.fecha⟩

instance : IsTrans HRow hfecha_le := ⟨fun _ _ _ => Nat.le_trans⟩

/-- Merge step of `cargar_datos_historicos` (app.py:118-122) on the
per-file tables that were read successfully (a file that fails to read is
skipped with a warning and simply contributes no table):
`pd.concat(all_dfs)` then `drop_duplicates` on the triple, then
`sort_values("Fecha")`.  With no tables at all the result is the empty
frame (app.py:104-108, 123-124). -/
def cargar_datos_historicos (files : List (List HRow)) : List HRow :=
  List.insertionSort hfecha_le (dedupTriples files.flatten)

/-! ## Extractor and temporary-file lifecycle (app.py:17-34, 75-99) -/

/-- Header/footer filtering of app.py:27: drop every row whose first cell
contains `"FECHA"` or `"DESCRIPCIÓN"` (regex alternation, substring
search, `na=False`). -/
def clean_rows (rows : List (List String)) : List (List String) :=
  rows.filter
    (fun r => !(contains_substr (r.getD 0 "") "FECHA" || contains_substr (r.getD 0 "") "DESCRIPCIÓN"))

/-- Outcome of the extraction attempt inside
`extract_bank_data` (app.py:17-34), an environment oracle:
* `tables rows`: `camelot.read_pdf` finds tables whose concatenation is
  `rows` (app.py:25-28);
* `noTables`: zero tables detected — `st.error` and empty frame
  (app.py:29-31);
* `extractError`: `camelot.read_pdf` (or the concatenation) raises and
  the `except` of app.py:32-34 reports and returns the empty frame;
* `raises`: an exception escapes `extract_bank_data` itself — the
  statement `import camelot` (app.py:18) runs *outside* the `try` block
  that starts at app.py:19, so a failing import propagates to the caller. -/
inductive ExtOutcome
  | tables (rows : List (List String))
  | noTables
  | extractError
  | raises
deriving DecidableEq, Repr

/-- Value of the `extract_bank_data(tmp_path)` call as seen by its
caller: `some rawTable` when the function returns (its internal `except`
turns extraction failures into an empty frame), `none` when an exception
escapes it. -/
def extract_bank_data : ExtOutcome → Option (List (List String))
  | .tables rows => some (clean_rows rows)
  | .noTables => some []
  | .extractError => some []
  | .raises => none

/-- Does the temporary PDF file written at app.py:78-80 still exist when
`load_and_process_bank_statement` returns?  The source calls
`os.unlink(tmp_path)` (app.py:83) on the straight-line path after
`extract_bank_data` and `process_transactions`; there is no
`try/finally`, so an exception raised between the write and the unlink is
caught by the `except` at app.py:97-99 *after* the deletion point and the
file is left behind.  `process_transactions` itself catches all its
exceptions (it is the total function above), so only the extraction step
can skip the unlink. -/
def load_and_process_tmp_exists (ext : ExtOutcome) : Bool :=
  match extract_bank_data ext with
  | none => true
  | some raw =>
    let _processed := process_transactions raw
    false

/-! ## Caller-visible mutation of the argument of `process_transactions`
(app.py:40-43) -/

/-- One dataframe cell: a raw string cell, or a parsed-date cell
(`Cell.dt none` is pandas `NaT`). -/
inductive Cell
  | s (v : String)
  | dt (v : Option Nat)
deriving DecidableEq, Repr

/-- The string content `pd.to_datetime` sees in a cell.  Raw tables from
the extractor carry string cells only. -/
def cell_str : Cell → String
  | .s v => v
  | .dt _ => ""

/-- A dataframe as a mutable object: its column labels and its rows. -/
structure DFState where
  cols : List String
  rows : List (List Cell)
deriving DecidableEq, Repr

/-- State of the *argument* dataframe after `process_transactions`
returns.  The source mutates its argument in place before rebinding:
`raw_df.columns = [...]` (app.py:40) renames the columns of the caller's
object, and `raw_df["Fecha"] = pd.to_datetime(...)` (app.py:42) overwrites
the first column with parsed dates; from `raw_df = raw_df.dropna(...)`
(app.py:43) on, the name is rebound to a fresh frame and later writes no
longer touch the argument.  On an empty frame the function returns first
(app.py:37-38); with a column count other than six the assignment at
app.py:40 raises before mutating and the `except` returns — in both cases
the argument is untouched. -/
def process_transactions_arg (df : DFState) : DFState :=
  if df.rows = [] then df
  else if df.cols.length ≠ 6 then df
  else
    { cols := canonical_cols
      rows := df.rows.map (fun r =>
        match r with
        | [] => []
        | c :: rest => Cell.dt (parse_fecha (cell_str c)) :: rest) }


/-- Discrepancy condition at offset `k` of the row block `rows`, entered
with value prefix sum `acc`. -/
def discCond (s0 v0 acc : ℚ) (rows : List VRow) (k : Nat) (r : VRow) : Prop :=
  1 < |acc + ((rows.map (fun x => x.valor)).take (k + 1)).sum + s0 - v0 - r.saldo|

/-- A one-row raw table whose amounts use a dot decimal separator, for
the C2 witness. -/
def c2_raw : List (List String) :=
  [["02/01/2024", "RETIRO", "", "", "-7.25", "10.00"]]

/-- The processed row the pipeline produces from `c2_raw`. -/
def c2_row : Txn :=
  { fecha := 20240102, descripcion := "RETIRO", sucursal := "", doc := "",
    valor := -29/4, saldo := 10, categoria := "Egresos", ingresos := 0,
    egresos := 29/4, flujoNeto := -29/4, saldoAcumulado := 10 }

/-- The raw rows of the end-to-end scenario of the spec (section 8). -/
def c4_raw : List (List String) :=
  [["01/01/2024", "ABONO X", "", "", "100,00", "1.000,00"],
   ["02/01/2024", "COMISIÓN Y", "", "", "-50,00", "950,00"]]

/-- Two snapshot tables sharing one (`Fecha`, `Valor`, `Descripción`)
triple, for the C7 witness. -/
def c7_files : List (List HRow) :=
  [[{ fecha := 20240101, valor := 5, descripcion := "A", extra := "f1" }],
   [{ fecha := 20240101, valor := 5, descripcion := "A", extra := "f2" },
    { fecha := 20240102, valor := 7, descripcion := "B", extra := "f2" }]]

/-- A concrete six-column one-row raw frame (as the mutable object the
caller passes in). -/
def c9_df : DFState :=
  { cols := ["0", "1", "2", "3", "4", "5"],
    rows := [[Cell.s "01/01/2024", Cell.s "ABONO", Cell.s "", Cell.s "",
              Cell.s "100.50", Cell.s "200.75"]] }

/-! ## Theorems -/

lemma discCond_zero (s0 v0 acc : ℚ) (x : VRow) (xs : List VRow) :
    discCond s0 v0 acc (x :: xs) 0 x ↔ 1 < |acc + x.valor + s0 - v0 - x.saldo| := by
  unfold discCond
  have he : acc + (((x :: xs).map (fun t => t.valor)).take 1).sum + s0 - v0 - x.saldo
      = acc + x.valor + s0 - v0 - x.saldo := by
    simp
  rw [he]

lemma discCond_succ (s0 v0 acc : ℚ) (x : VRow) (xs : List VRow) (k : Nat) (r : VRow) :
    discCond s0 v0 acc (x :: xs) (k + 1) r ↔ discCond s0 v0 (acc + x.valor) xs k r := by
  unfold discCond
  have he : acc + (((x :: xs).map (fun t => t.valor)).take (k + 1 + 1)).sum + s0 - v0 - r.saldo
      = acc + x.valor + ((xs.map (fun t => t.valor)).take (k + 1)).sum + s0 - v0 - r.saldo := by
    simp
    ring
  rw [he]

lemma validateAux_mem (s0 v0 : ℚ) :
    ∀ (rows : List VRow) (acc : ℚ) (i j : Nat) (r : VRow),
      ((j, r) ∈ validateAux s0 v0 acc i rows) ↔
        ∃ k, i + k = j ∧ rows[k]? = some r ∧ discCond s0 v0 acc rows k r := by
  intro rows
  induction rows with
  | nil =>
    intro acc i j r
    simp [validateAux]
  | cons x xs ih =>
    intro acc i j r
    rw [validateAux]
    by_cases hc : 1 < |acc + x.valor + s0 - v0 - x.saldo|
    · rw [if_pos hc, List.mem_cons, ih (acc + x.valor) (i + 1) j r]
      constructor
      · rintro (he | ⟨k, hk, hget, hcond⟩)
        · have hj : j = i := congrArg Prod.fst he
          have hr : r = x := congrArg Prod.snd he
          subst hj; subst hr
          exact ⟨0, by omega, by simp, (discCond_zero s0 v0 acc r xs).mpr hc⟩
        · exact ⟨k + 1, by omega, by simpa using hget,
            (discCond_succ s0 v0 acc x xs k r).mpr hcond⟩
      · rintro ⟨k, hk, hget, hcond⟩
        cases k with
        | zero =>
          have hr : x = r := by simpa using hget
          subst hr
          exact Or.inl (by simp; omega)
        | succ k' =>
          exact Or.inr ⟨k', by omega, by simpa using hget,
            (discCond_succ s0 v0 acc x xs k' r).mp hcond⟩
    · rw [if_neg hc, ih (acc + x.valor) (i + 1) j r]
      constructor
      · rintro ⟨k, hk, hget, hcond⟩
        exact ⟨k + 1, by omega, by simpa using hget,
          (discCond_succ s0 v0 acc x xs k r).mpr hcond⟩
      · rintro ⟨k, hk, hget, hcond⟩
        cases k with
        | zero =>
          have hr : x = r := by simpa using hget
          subst hr
          exact absurd ((discCond_zero s0 v0 acc x xs).mp hcond) hc
        | succ k' =>
          exact ⟨k', by omega, by simpa using hget,
            (discCond_succ s0 v0 acc x xs k' r).mp hcond⟩

lemma consistentAux_get (s0 v0 : ℚ) :
    ∀ (rows : List VRow) (acc : ℚ) (k : Nat) (r : VRow),
      consistentAux s0 v0 acc rows = true → rows[k]? = some r →
        r.saldo = acc + ((rows.map (fun x => x.valor)).take (k + 1)).sum + s0 - v0 := by
  intro rows
  induction rows with
  | nil => intro acc k r _ hget; simp at hget
  | cons x xs ih =>
    intro acc k r hcons hget
    rw [consistentAux, Bool.and_eq_true, decide_eq_true_eq] at hcons
    obtain ⟨hx, hrest⟩ := hcons
    cases k with
    | zero =>
      have hr : x = r := by simpa using hget
      subst hr
      rw [hx]
      simp
    | succ k' =>
      have := ih (acc + x.valor) k' r hrest (by simpa using hget)
      rw [this]
      simp
      ring

lemma consistent_validateAux_nil (s0 v0 : ℚ) :
    ∀ (rows : List VRow) (acc : ℚ) (i : Nat),
      consistentAux s0 v0 acc rows = true → validateAux s0 v0 acc i rows = [] := by
  intro rows
  induction rows with
  | nil => intro acc i _; rfl
  | cons x xs ih =>
    intro acc i hcons
    rw [consistentAux, Bool.and_eq_true, decide_eq_true_eq] at hcons
    obtain ⟨hx, hrest⟩ := hcons
    rw [validateAux, if_neg, ih (acc + x.valor) (i + 1) hrest]
    rw [hx]
    simp

lemma perturb_map_valor (d : ℚ) :
    ∀ (df : List VRow) (j : Nat), (perturb df j d).map (fun r => r.valor) = df.map (fun r => r.valor) := by
  intro df
  induction df with
  | nil => intro j; rfl
  | cons x xs ih =>
    intro j
    cases j with
    | zero => simp [perturb]
    | succ j' => simp [perturb, ih j']

lemma perturb_getElem? (d : ℚ) :
    ∀ (df : List VRow) (j : Nat) (r : VRow), df[j]? = some r →
      (perturb df j d)[j]? = some { r with saldo := r.saldo + d } := by
  intro df
  induction df with
  | nil => intro j r hget; simp at hget
  | cons x xs ih =>
    intro j r hget
    cases j with
    | zero =>
      have hr : x = r := by simpa using hget
      subst hr
      simp [perturb]
    | succ j' =>
      have := ih j' r (by simpa using hget)
      simpa [perturb] using this

lemma discCond_recomputed (h : VRow) (t : List VRow) (i : Nat) (r : VRow) :
    discCond h.saldo h.valor 0 (h :: t) i r ↔ 1 < |recomputed (h :: t) i - r.saldo| := by
  unfold discCond recomputed
  have he : (0:ℚ) + (((h :: t).map (fun x => x.valor)).take (i + 1)).sum + h.saldo - h.valor - r.saldo
      = (((h :: t).map (fun x => x.valor)).take (i + 1)).sum + (h :: t).headI.saldo
          - (h :: t).headI.valor - r.saldo := by
    simp [List.headI]
  rw [he]

/-- C1 (amended). For every non-empty table, `validate_balances`
returns exactly the (index, row) pairs whose recomputed running balance
`cumsum(Valor)[i] + Saldo[0] - Valor[0]` differs from the stated `Saldo`
by more than 1; a table whose balances are consistent yields the empty
frame; and perturbing one balance entry at an index `j ≥ 1` of a
consistent table by more than 1 makes that row appear (at index 0 it
does not — the counterexample to the claim as stated). -/
theorem validate_balances_characterization (df : List VRow) (hne : df ≠ []) :
    (∀ i r, ((i, r) ∈ validate_balances df) ↔
        (df[i]? = some r ∧ 1 < |recomputed df i - r.saldo|))
    ∧ (consistentB df = true → validate_balances df = [])
    ∧ (∀ j d r, 1 ≤ j → df[j]? = some r → consistentB df = true → 1 < |d| →
        (j, { r with saldo := r.saldo + d }) ∈ validate_balances (perturb df j d)) := by
  match df, hne with
  | h :: t, _ =>
  refine ⟨?_, ?_, ?_⟩
  · intro i r
    show (i, r) ∈ validateAux h.saldo h.valor 0 0 (h :: t) ↔ _
    rw [validateAux_mem]
    constructor
    · rintro ⟨k, hk, hget, hcond⟩
      have hki : k = i := by omega
      subst hki
      exact ⟨hget, (discCond_recomputed h t k r).mp hcond⟩
    · rintro ⟨hget, hcond⟩
      exact ⟨i, by omega, hget, (discCond_recomputed h t i r).mpr hcond⟩
  · intro hcons
    show validateAux h.saldo h.valor 0 0 (h :: t) = []
    exact consistent_validateAux_nil h.saldo h.valor (h :: t) 0 0 hcons
  · intro j d r hj hget hcons hd
    match j, hj with
    | j' + 1, _ =>
    show (j' + 1, _) ∈ validate_balances (h :: perturb t j' d)
    show (j' + 1, _) ∈ validateAux h.saldo h.valor 0 0 (h :: perturb t j' d)
    rw [validateAux_mem]
    refine ⟨j' + 1, by omega, ?_, ?_⟩
    · exact perturb_getElem? d (h :: t) (j' + 1) r hget
    · unfold discCond
      have hmv : ((h :: perturb t j' d).map (fun x => x.valor))
          = ((h :: t).map (fun x => x.valor)) := perturb_map_valor d (h :: t) (j' + 1)
      rw [hmv]
      have hsal : r.saldo
          = 0 + (((h :: t).map (fun x => x.valor)).take (j' + 1 + 1)).sum + h.saldo - h.valor :=
        consistentAux_get h.saldo h.valor (h :: t) 0 (j' + 1) r hcons hget
      have he : (0:ℚ) + (((h :: t).map (fun x => x.valor)).take (j' + 1 + 1)).sum + h.saldo
          - h.valor - ({ r with saldo := r.saldo + d } : VRow).saldo = -d := by
        show (0:ℚ) + _ + h.saldo - h.valor - (r.saldo + d) = -d
        rw [hsal]
        ring
      rw [he, abs_neg]
      exact hd

/-- C10. The first row of a table is never flagged by
`validate_balances`: every returned index is positive, because the
recomputed balance at index 0 is `Valor[0] + Saldo[0] - Valor[0] =
Saldo[0]`, a difference of exactly zero. -/
theorem validate_balances_skips_first_row :
    (∀ (df : List VRow) (i : Nat) (r : VRow), (i, r) ∈ validate_balances df → 0 < i)
    ∧ (∀ (h : VRow) (t : List VRow), recomputed (h :: t) 0 = h.saldo) := by
  constructor
  · intro df i r hm
    match df with
    | [] => simp [validate_balances] at hm
    | h :: t =>
      change (i, r) ∈ validateAux h.saldo h.valor 0 0 (h :: t) at hm
      rw [validateAux_mem] at hm
      obtain ⟨k, hk, hget, hcond⟩ := hm
      by_contra hi
      have hi0 : i = 0 := by omega
      have hk0 : k = 0 := by omega
      subst hi0; subst hk0
      have hr : h = r := by simpa using hget
      subst hr
      rw [discCond_zero] at hcond
      have : h.valor + h.saldo - h.valor - h.saldo = 0 := by ring
      rw [show (0:ℚ) + h.valor + h.saldo - h.valor - h.saldo
          = h.valor + h.saldo - h.valor - h.saldo from by ring, this] at hcond
      exact absurd hcond (by norm_num)
  · intro h t
    unfold recomputed
    simp [List.headI]

theorem validate_balances_perturb_first_counterexample :
    consistentB [({ valor := 0, saldo := 10 } : VRow)] = true
    ∧ (1:ℚ) < |(2:ℚ)|
    ∧ validate_balances (perturb [({ valor := 0, saldo := 10 } : VRow)] 0 2) = [] := by
  refine ⟨by with_unfolding_all rfl, by norm_num, by with_unfolding_all rfl⟩

theorem validate_balances_characterization_witness :
    validate_balances [({ valor := 5, saldo := 100 } : VRow), { valor := 3, saldo := 103 }] = [] :=
  (validate_balances_characterization
      [{ valor := 5, saldo := 100 }, { valor := 3, saldo := 103 }]
      (List.cons_ne_nil _ _)).2.1 (by with_unfolding_all rfl)

theorem validate_balances_skips_first_row_witness :
    (1, ({ valor := 0, saldo := 20 } : VRow)) ∈
        validate_balances [({ valor := 0, saldo := 10 } : VRow), { valor := 0, saldo := 20 }]
    ∧ 0 < 1 :=
  ⟨of_decide_eq_true (by with_unfolding_all rfl),
   validate_balances_skips_first_row.1
     [{ valor := 0, saldo := 10 }, { valor := 0, saldo := 20 }] 1 { valor := 0, saldo := 20 }
     (of_decide_eq_true (by with_unfolding_all rfl))⟩

lemma build_txn_flow (f : Nat) (r : List String) (v s : ℚ) :
    (build_txn f r v s).ingresos - (build_txn f r v s).egresos = (build_txn f r v s).flujoNeto := by
  show (if 0 < v then v else 0) - (if v < 0 then |v| else 0) = v
  by_cases h1 : 0 < v
  · have h2 : ¬ v < 0 := not_lt.mpr (le_of_lt h1)
    simp [h1, h2]
  · by_cases h2 : v < 0
    · simp [h1, h2, abs_of_neg h2]
    · have h0 : v = 0 := le_antisymm (not_lt.mp h1) (not_lt.mp h2)
      simp [h1, h2, h0]

lemma process_rows_fst_cases (dated : List (Nat × List String)) :
    (process_rows dated).1 = []
    ∨ ∃ l : List ((Nat × List String) × ℚ × ℚ),
        (process_rows dated).1
          = List.insertionSort fecha_le (l.map (fun q => build_txn q.1.1 q.1.2 q.2.1 q.2.2)) := by
  rw [process_rows]
  rcases hv : (dated.map (fun p => p.2.getD 4 "")).mapM parse_money with _ | vals
  · rw [hv]
    exact Or.inl rfl
  · rw [hv]
    rcases hs : (dated.map (fun p => p.2.getD 5 "")).mapM parse_money with _ | saldos
    · rw [hs]
      exact Or.inl rfl
    · rw [hs]
      exact Or.inr ⟨dated.zip (vals.zip saldos), rfl⟩

lemma process_transactions_fst_cases (raw : List (List String)) :
    (process_transactions raw).1 = []
    ∨ ∃ l : List ((Nat × List String) × ℚ × ℚ),
        (process_transactions raw).1
          = List.insertionSort fecha_le (l.map (fun q => build_txn q.1.1 q.1.2 q.2.1 q.2.2)) := by
  match raw with
  | [] => exact Or.inl rfl
  | r0 :: rs =>
    rw [process_transactions]
    by_cases h6 : r0.length = 6
    · rw [if_pos h6]
      exact process_rows_fst_cases _
    · rw [if_neg h6]
      exact Or.inl rfl

/-- C2. For every raw table, the frame returned by `process_transactions`
is sorted non-decreasing by date, and every row of it satisfies
`Ingresos - Egresos = Flujo Neto` exactly (for a valid six-column table
this is the claim; for every other input the output is empty and the
statement holds trivially). -/
theorem process_transactions_sorted_and_flow (raw : List (List String)) :
    List.Sorted fecha_le (process_transactions raw).1
    ∧ ∀ t ∈ (process_transactions raw).1, t.ingresos - t.egresos = t.flujoNeto := by
  rcases process_transactions_fst_cases raw with h | ⟨l, h⟩
  · rw [h]
    exact ⟨List.sorted_nil, by simp⟩
  · rw [h]
    refine ⟨List.sorted_insertionSort fecha_le _, ?_⟩
    intro t ht
    have hm : t ∈ l.map (fun q => build_txn q.1.1 q.1.2 q.2.1 q.2.2) :=
      (List.perm_insertionSort fecha_le _).mem_iff.mp ht
    obtain ⟨q, _, rfl⟩ := List.mem_map.mp hm
    exact build_txn_flow _ _ _ _

set_option maxRecDepth 8000 in
theorem process_transactions_sorted_and_flow_witness :
    c2_row.ingresos - c2_row.egresos = c2_row.flujoNeto
    ∧ List.Sorted fecha_le (process_transactions c2_raw).1 := by
  have h : (process_transactions c2_raw).1 = [c2_row] := by with_unfolding_all rfl
  exact ⟨(process_transactions_sorted_and_flow c2_raw).2 c2_row
      (by rw [h]; exact List.mem_cons_self _ _),
    (process_transactions_sorted_and_flow c2_raw).1⟩

/-- C3. First-match-wins categorization: any description containing
"TRANSFERENCIA A FAVOR" is Ingresos (the Ingresos rule is tested first),
the example "TRANSFERENCIA BANCARIA" (containing "TRANSFERENCIA" but not
"A FAVOR") is Egresos, and a description matching no rule is Otros. -/
theorem categorize_first_match :
    (∀ d : String, contains_substr d "TRANSFERENCIA A FAVOR" = true → categorize d = "Ingresos")
    ∧ categorize "TRANSFERENCIA BANCARIA" = "Egresos"
    ∧ (∀ d : String, matches_any ingresos_pats d = false → matches_any egresos_pats d = false →
        matches_any servicios_pats d = false → categorize d = "Otros") := by
  refine ⟨?_, ?_, ?_⟩
  · intro d hd
    have hm : matches_any ingresos_pats d = true :=
      List.any_eq_true.mpr ⟨"TRANSFERENCIA A FAVOR", by simp [ingresos_pats], hd⟩
    simp [categorize, hm]
  · with_unfolding_all rfl
  · intro d h1 h2 h3
    simp [categorize, h1, h2, h3]

theorem categorize_first_match_witness :
    categorize "PAGO TRANSFERENCIA A FAVOR DE JUAN" = "Ingresos"
    ∧ categorize "HOLA" = "Otros" :=
  ⟨categorize_first_match.1 _ (by with_unfolding_all rfl),
   categorize_first_match.2.2 _ (by with_unfolding_all rfl) (by with_unfolding_all rfl)
     (by with_unfolding_all rfl)⟩

/-- C5. A non-empty raw table whose column count (the length of its
rows; the extractor's tables are rectangular, so the first row's length)
differs from six makes the column assignment of app.py:40 raise: the
`except` branch reports an error and returns the empty frame. -/
theorem process_transactions_column_mismatch (r : List String) (rs : List (List String))
    (h : r.length ≠ 6) :
    (process_transactions (r :: rs)).1 = []
    ∧ (process_transactions (r :: rs)).2.isSome = true := by
  rw [process_transactions, if_neg h]
  exact ⟨rfl, rfl⟩

theorem process_transactions_column_mismatch_witness :
    (process_transactions [["a", "b", "c", "d", "e"]]).1 = []
    ∧ (process_transactions [["a", "b", "c", "d", "e"]]).2.isSome = true :=
  process_transactions_column_mismatch ["a", "b", "c", "d", "e"] [] (by decide)

lemma process_rows_error_empty (dated : List (Nat × List String)) :
    (process_rows dated).2.isSome = true → (process_rows dated).1 = [] := by
  rw [process_rows]
  rcases hv : (dated.map (fun p => p.2.getD 4 "")).mapM parse_money with _ | vals
  · rw [hv]
    intro _
    rfl
  · rw [hv]
    rcases hs : (dated.map (fun p => p.2.getD 5 "")).mapM parse_money with _ | saldos
    · rw [hs]
      intro _
      rfl
    · rw [hs]
      intro hsome
      simp at hsome

/-- C6. `process_transactions` never raises (it is a total function whose
error channel models the caught-and-reported exceptions): the empty input
gives the empty frame with no error; an input all of whose date cells are
unparseable gives the empty frame (the rows are all dropped by the
`dropna` of app.py:43); and whenever an error is reported the returned
frame is empty. -/
theorem process_transactions_never_raises :
    process_transactions [] = ([], none)
    ∧ (∀ raw : List (List String), (∀ row ∈ raw, parse_fecha (row.getD 0 "") = none) →
        (process_transactions raw).1 = [])
    ∧ (∀ raw : List (List String), (process_transactions raw).2.isSome = true →
        (process_transactions raw).1 = []) := by
  refine ⟨rfl, ?_, ?_⟩
  · intro raw hall
    match raw with
    | [] => rfl
    | r0 :: rs =>
      rw [process_transactions]
      by_cases h6 : r0.length = 6
      · rw [if_pos h6]
        have hdated : (r0 :: rs).filterMap
            (fun r => (parse_fecha (r.getD 0 "")).map (fun f => (f, r))) = [] := by
          rw [List.filterMap_eq_nil_iff]
          intro a ha
          rw [hall a ha]
          rfl
        rw [hdated]
        rfl
      · rw [if_neg h6]
  · intro raw hsome
    match raw, hsome with
    | r0 :: rs, hsome =>
      rw [process_transactions] at hsome ⊢
      by_cases h6 : r0.length = 6
      · rw [if_pos h6] at hsome ⊢
        exact process_rows_error_empty _ hsome
      · rw [if_neg h6]

theorem process_transactions_never_raises_witness :
    (process_transactions [["nota", "x", "", "", "1", "2"]]).1 = []
    ∧ (process_transactions [["a"]]).1 = [] :=
  ⟨process_transactions_never_raises.2.1 _ (of_decide_eq_true (by with_unfolding_all rfl)),
   process_transactions_never_raises.2.2 _ (by with_unfolding_all rfl)⟩

theorem c4_counterexample :
    (process_transactions c4_raw).1.map (fun t => t.flujoNeto) ≠ [(100 : ℚ), -50]
    ∧ validate_balances ((process_transactions c4_raw).1.map toVRow) ≠ [] :=
  ⟨of_decide_eq_true (by with_unfolding_all rfl),
   of_decide_eq_true (by with_unfolding_all rfl)⟩

/-- C4 (amended). On the scenario rows the pipeline succeeds with two
rows and categories [Ingresos, Egresos], but the comma is stripped as a
thousands separator, so "100,00" parses as 10000, "-50,00" as -5000,
"1.000,00" as 1.0 and "950,00" as 95000; hence the net flows are
[10000, -5000] and the validator flags the second row (recomputed
balance -4999 against stated 95000). -/
theorem c4_eval :
    (process_transactions c4_raw).1.map (fun t => (t.fecha, t.categoria, t.flujoNeto))
      = [(20240101, "Ingresos", (10000 : ℚ)), (20240102, "Egresos", -5000)]
    ∧ (process_transactions c4_raw).2 = none
    ∧ validate_balances ((process_transactions c4_raw).1.map toVRow)
      = [(1, { valor := -5000, saldo := 95000 })] := by
  refine ⟨by with_unfolding_all rfl, by with_unfolding_all rfl, by with_unfolding_all rfl⟩

lemma dedupAux_countP_seen :
    ∀ (l : List HRow) (seen : List (Nat × ℚ × String)) (t : Nat × ℚ × String), t ∈ seen →
      (dedupAux seen l).countP (fun r => decide (triple r = t)) = 0 := by
  intro l
  induction l with
  | nil => intro seen t _; rfl
  | cons x xs ih =>
    intro seen t ht
    rw [dedupAux]
    by_cases hx : triple x ∈ seen
    · rw [if_pos hx]
      exact ih seen t ht
    · rw [if_neg hx]
      rw [List.countP_cons]
      have hxt : (decide (triple x = t)) = false :=
        decide_eq_false (fun he => hx (by rw [he]; exact ht))
      rw [ih (triple x :: seen) t (List.mem_cons_of_mem _ ht), hxt]
      simp

lemma dedupAux_countP_new :
    ∀ (l : List HRow) (seen : List (Nat × ℚ × String)) (t : Nat × ℚ × String), t ∉ seen →
      0 < l.countP (fun r => decide (triple r = t)) →
      (dedupAux seen l).countP (fun r => decide (triple r = t)) = 1 := by
  intro l
  induction l with
  | nil => intro seen t _ h; simp at h
  | cons x xs ih =>
    intro seen t ht hocc
    rw [dedupAux]
    by_cases hx : triple x ∈ seen
    · rw [if_pos hx]
      have hxt : (decide (triple x = t)) = false :=
        decide_eq_false (fun he => ht (by rw [← he]; exact hx))
      apply ih seen t ht
      rw [List.countP_cons, hxt] at hocc
      simpa using hocc
    · rw [if_neg hx]
      by_cases hxt : triple x = t
      · rw [List.countP_cons]
        rw [dedupAux_countP_seen xs _ t (by rw [← hxt]; exact List.mem_cons_self _ _)]
        simp [hxt]
      · have h0 : (decide (triple x = t)) = false := decide_eq_false hxt
        rw [List.countP_cons, h0]
        simp only [if_false, Bool.false_eq_true, Nat.add_zero]
        apply ih (triple x :: seen) t
        · intro hmem
          rcases List.mem_cons.mp hmem with he | he
          · exact hxt he.symm
          · exact ht he
        · rw [List.countP_cons, h0] at hocc
          simpa using hocc

lemma dedupAux_find :
    ∀ (l : List HRow) (seen : List (Nat × ℚ × String)) (t : Nat × ℚ × String) (r : HRow),
      t ∉ seen → l.find? (fun r => decide (triple r = t)) = some r → r ∈ dedupAux seen l := by
  intro l
  induction l with
  | nil => intro seen t r _ h; simp at h
  | cons x xs ih =>
    intro seen t r ht hfind
    rw [dedupAux]
    by_cases hxt : triple x = t
    · simp only [List.find?_cons, decide_eq_true hxt, if_true] at hfind
      have hrx : x = r := by injection hfind
      subst hrx
      rw [if_neg (fun hs => ht (hxt ▸ hs))]
      exact List.mem_cons_self _ _
    · simp only [List.find?_cons, decide_eq_false hxt, if_false, Bool.false_eq_true] at hfind
      by_cases hx : triple x ∈ seen
      · rw [if_pos hx]
        exact ih seen t r ht hfind
      · rw [if_neg hx]
        refine List.mem_cons_of_mem _ (ih (triple x :: seen) t r ?_ hfind)
        intro hmem
        rcases List.mem_cons.mp hmem with he | he
        · exact hxt he.symm
        · exact ht he

/-- C7. For every list of snapshot tables and every
(`Fecha`, `Valor`, `Descripción`) triple occurring in their
concatenation, the merged table of `cargar_datos_historicos` contains
exactly one row with that triple, the first occurrence (in concatenation
order) is the row kept, and the merged table is sorted ascending by
date. -/
theorem cargar_datos_historicos_spec (files : List (List HRow)) (t : Nat × ℚ × String)
    (hocc : 0 < files.flatten.countP (fun r => decide (triple r = t))) :
    (cargar_datos_historicos files).countP (fun r => decide (triple r = t)) = 1
    ∧ (∀ r : HRow, files.flatten.find? (fun r => decide (triple r = t)) = some r →
        r ∈ cargar_datos_historicos files)
    ∧ List.Sorted hfecha_le (cargar_datos_historicos files) := by
  unfold cargar_datos_historicos dedupTriples
  refine ⟨?_, ?_, List.sorted_insertionSort hfecha_le _⟩
  · rw [(List.perm_insertionSort hfecha_le _).countP_eq]
    exact dedupAux_countP_new files.flatten [] t (List.not_mem_nil t) hocc
  · intro r hfind
    exact (List.perm_insertionSort hfecha_le _).mem_iff.mpr
      (dedupAux_find files.flatten [] t r (List.not_mem_nil t) hfind)

theorem cargar_datos_historicos_spec_witness :
    (cargar_datos_historicos c7_files).countP
      (fun r => decide (triple r = (20240101, (5 : ℚ), "A"))) = 1
    ∧ ({ fecha := 20240101, valor := 5, descripcion := "A", extra := "f1" } : HRow) ∈
        cargar_datos_historicos c7_files :=
  ⟨(cargar_datos_historicos_spec c7_files (20240101, (5 : ℚ), "A")
      (of_decide_eq_true (by with_unfolding_all rfl))).1,
   (cargar_datos_historicos_spec c7_files (20240101, (5 : ℚ), "A")
      (of_decide_eq_true (by with_unfolding_all rfl))).2.1 _
     (by with_unfolding_all rfl)⟩

theorem tmp_file_leak_counterexample :
    load_and_process_tmp_exists ExtOutcome.raises = true := rfl

/-- C8 (amended). The temporary PDF is deleted whenever the extraction
call returns to `load_and_process_bank_statement` — in particular on
every handled extraction failure (no tables, extractor exception caught
inside `extract_bank_data`) and regardless of the normalization outcome
(`process_transactions` never raises).  Only when an exception escapes
the extraction step itself (the `import camelot` of app.py:18 sits
outside the `try`) does the outer handler skip `os.unlink` and leak the
file, which is the counterexample to the claim as stated. -/
theorem tmp_file_deleted_when_extract_returns (ext : ExtOutcome)
    (h : ext ≠ ExtOutcome.raises) :
    load_and_process_tmp_exists ext = false := by
  cases ext with
  | tables rows => rfl
  | noTables => rfl
  | extractError => rfl
  | raises => exact absurd rfl h

theorem tmp_file_deleted_witness :
    load_and_process_tmp_exists ExtOutcome.noTables = false :=
  tmp_file_deleted_when_extract_returns ExtOutcome.noTables (by decide)

theorem process_transactions_mutates_argument :
    process_transactions_arg c9_df ≠ c9_df :=
  of_decide_eq_true (by with_unfolding_all rfl)

/-- C9 (amended). `process_transactions` leaves its argument unchanged
when the argument is empty or its column count differs from six; on a
non-empty six-column argument the caller's frame is mutated in place:
its column labels become the canonical names and every row's first cell
is overwritten by the parsed date, while the row count and all remaining
cells are preserved. -/
theorem process_transactions_arg_effect :
    (∀ df : DFState, df.rows = [] → process_transactions_arg df = df)
    ∧ (∀ df : DFState, df.cols.length ≠ 6 → process_transactions_arg df = df)
    ∧ (∀ df : DFState, df.rows ≠ [] → df.cols.length = 6 →
        (process_transactions_arg df).cols = canonical_cols
        ∧ (process_transactions_arg df).rows.length = df.rows.length
        ∧ (∀ i : Nat, ((process_transactions_arg df).rows[i]?).map (fun r => r.drop 1)
            = (df.rows[i]?).map (fun r => r.drop 1))
        ∧ (∀ i : Nat, ((process_transactions_arg df).rows[i]?).map (fun r => r.head?)
            = (df.rows[i]?).map
                (fun r => (r.head?).map (fun c => Cell.dt (parse_fecha (cell_str c)))))) := by
  refine ⟨?_, ?_, ?_⟩
  · intro df h
    unfold process_transactions_arg
    rw [if_pos h]
  · intro df h
    unfold process_transactions_arg
    by_cases hr : df.rows = []
    · rw [if_pos hr]
    · rw [if_neg hr, if_pos h]
  · intro df hr h6
    unfold process_transactions_arg
    rw [if_neg hr, if_neg (fun h' => h' h6)]
    refine ⟨rfl, by simp, ?_, ?_⟩
    · intro i
      rw [List.getElem?_map]
      cases df.rows[i]? with
      | none => rfl
      | some r =>
        cases r with
        | nil => rfl
        | cons c rest => rfl
    · intro i
      rw [List.getElem?_map]
      cases df.rows[i]? with
      | none => rfl
      | some r =>
        cases r with
        | nil => rfl
        | cons c rest => rfl

theorem process_transactions_arg_effect_witness :
    (process_transactions_arg c9_df).cols = canonical_cols
    ∧ process_transactions_arg { cols := ["0"], rows := [] } = { cols := ["0"], rows := [] } :=
  ⟨(process_transactions_arg_effect.2.2 c9_df (of_decide_eq_true (by with_unfolding_all rfl))
      (by decide)).1,
   process_transactions_arg_effect.1 { cols := ["0"], rows := [] } rfl⟩

end FlujoCaja
